import Mathlib

/-!
Shallow embedding of the parity-bridges-common message-lane protocol and of the
concrete code in `bin/runtime-common/src/mock.rs` and
`modules/messages/src/weights.rs`.

The repository snapshot under verification contains only the mock runtime and
the autogenerated weight table; the lane state machine itself
(`OutboundLane` / `InboundLane` and the two protocol entry points) is not part
of the sources, so those operations are modelled from the specification text
(sections 3, 4.3-4.7 of the spec).  Every such definition carries a doc
comment starting with `Modelled from the spec:`.  Machine integers (`u64`
nonces, `u64` weight components, byte values) are modelled as `Nat`, with
explicit saturation at `2^64 - 1` where the code saturates.
-/

namespace BridgesCommon

/-- `u64::MAX`, the saturation bound of the balance / weight arithmetic. -/
def U64_MAX : Nat := 18446744073709551615

/-- Saturating `u64` addition (`saturating_add`). -/
def satAdd (a b : Nat) : Nat := min (a + b) U64_MAX

/-- Saturating `u64` multiplication (`saturating_mul`). -/
def satMul (a b : Nat) : Nat := min (a * b) U64_MAX

/-! ## Data model shared with `mock.rs` -/

/-- `LaneId([u8; 4])` from `bp_messages`: a 4-byte lane identifier. -/
structure LaneId where
  b0 : Nat
  b1 : Nat
  b2 : Nat
  b3 : Nat
deriving DecidableEq

/-- `TEST_LANE_ID: LaneId = LaneId([0, 0, 0, 0])` (mock.rs line 87). -/
def TEST_LANE_ID : LaneId := ⟨0, 0, 0, 0⟩

/-- `MAXIMAL_PENDING_MESSAGES_AT_TEST_LANE: MessageNonce = 32` (mock.rs line 89). -/
def MAXIMAL_PENDING_MESSAGES_AT_TEST_LANE : Nat := 32

/-- `BRIDGED_CHAIN_MIN_EXTRINSIC_WEIGHT: usize = 5` (mock.rs line 91). -/
def BRIDGED_CHAIN_MIN_EXTRINSIC_WEIGHT : Nat := 5

/-- `BRIDGED_CHAIN_MAX_EXTRINSIC_WEIGHT: usize = 2048` (mock.rs line 93). -/
def BRIDGED_CHAIN_MAX_EXTRINSIC_WEIGHT : Nat := 2048

/-- A message payload: an opaque byte sequence (`&[u8]` / `Vec<u8>`). -/
abbrev MessagePayload := List Nat

/-- `BridgedChainWithMessages::verify_dispatch_weight` for `BridgedChain`
(mock.rs lines 417-422): accepts a payload iff its byte length lies between
`BRIDGED_CHAIN_MIN_EXTRINSIC_WEIGHT` and `BRIDGED_CHAIN_MAX_EXTRINSIC_WEIGHT`,
both inclusive. -/
def verify_dispatch_weight (message_payload : MessagePayload) : Bool :=
  decide (BRIDGED_CHAIN_MIN_EXTRINSIC_WEIGHT ≤ message_payload.length) &&
    decide (message_payload.length ≤ BRIDGED_CHAIN_MAX_EXTRINSIC_WEIGHT)

/-- Runtime call origin at `ThisChain` (`frame_system::RawOrigin`-shaped). -/
inductive ThisChainCallOrigin where
  | root : ThisChainCallOrigin
  | signed (who : Nat) : ThisChainCallOrigin
  | nobody : ThisChainCallOrigin
deriving DecidableEq

/-- `ThisChainWithMessages::is_message_accepted` for `ThisChain`
(mock.rs lines 334-336): ignores the sending origin and accepts a message
iff the lane is `TEST_LANE_ID`. -/
def is_message_accepted (_send_origin : ThisChainCallOrigin) (lane : LaneId) : Bool :=
  decide (lane = TEST_LANE_ID)

/-- `ThisChainWithMessages::maximal_pending_messages_at_outbound_lane` for
`ThisChain` (mock.rs lines 338-340). -/
def maximal_pending_messages_at_outbound_lane : Nat :=
  MAXIMAL_PENDING_MESSAGES_AT_TEST_LANE

/-! ## Error taxonomy (spec section 7) -/

/-- Modelled from the spec: the error taxonomy of section 7.  `PayloadRejected`
is not named by the spec; it stands for the failure of the payload size/weight
constraint that section 4.3 places on `enqueue` without naming its error
value. -/
inductive LaneError where
  | HeaderNotFinalized
  | InvalidProof
  | PayloadDecodeError
  | InvalidNonceOrder
  | NonceNotInFlight
  | LaneCapacityExceeded
  | QueueCapacityExceeded
  | PayloadRejected
deriving DecidableEq

/-- Modelled from the spec: outcome of dispatching one delivered message
(section 6, dispatch collaborator).  The external dispatch collaborator is
modelled as always succeeding on acceptable payloads, so only `Dispatched`
and `Rejected` (oversize / under-minimum, section 4.4) arise. -/
inductive DispatchOutcome where
  | Dispatched
  | Rejected
deriving DecidableEq

/-! ## OutboundLane (spec sections 3 and 4.3; code absent from src/) -/

/-- Modelled from the spec: per-deployment outbound-lane configuration
(section 6): maximum pending messages and maximum payload size. -/
structure OutboundConfig where
  maxPendingMessages : Nat
  maxPayloadSize : Nat

/-- Modelled from the spec: `OutboundLaneData` (section 3): highest nonce
ever enqueued, highest nonce confirmed delivered, and the queued payloads
for nonces in `(latest_received_nonce, latest_generated_nonce]` (the payload
at list index `i` belongs to nonce `latest_received_nonce + 1 + i`). -/
structure OutboundLaneData where
  latest_received_nonce : Nat
  latest_generated_nonce : Nat
  queued : List MessagePayload
deriving DecidableEq

/-- Modelled from the spec: a fresh outbound lane (nonce 0 is "no message
yet", section 3). -/
def freshOutboundLane : OutboundLaneData := ⟨0, 0, []⟩

/-- Modelled from the spec: `OutboundLane.enqueue` (section 4.3).  Checks the
payload size constraint, then fails with `QueueCapacityExceeded` when the
pending count `latest_generated - latest_received` already equals the
maximum pending-messages bound; otherwise increments `latest_generated_nonce`,
stores the payload and returns the new nonce. -/
def enqueue (cfg : OutboundConfig) (lane : OutboundLaneData) (p : MessagePayload) :
    Except LaneError (Nat × OutboundLaneData) :=
  if cfg.maxPayloadSize < p.length then .error .PayloadRejected
  else if lane.latest_generated_nonce - lane.latest_received_nonce = cfg.maxPendingMessages then
    .error .QueueCapacityExceeded
  else
    .ok (lane.latest_generated_nonce + 1,
      { latest_received_nonce := lane.latest_received_nonce
        latest_generated_nonce := lane.latest_generated_nonce + 1
        queued := lane.queued ++ [p] })

/-- Modelled from the spec: `OutboundLane.prune_confirmed` (section 4.3).
A nonce at or below the current `latest_received_nonce` is a no-op success
(idempotent replay protection); a nonce above `latest_generated_nonce` fails
with `NonceNotInFlight`; otherwise stored payloads for confirmed nonces are
discarded and `latest_received_nonce` advances. -/
def prune_confirmed (lane : OutboundLaneData) (new_latest_received_nonce : Nat) :
    Except LaneError OutboundLaneData :=
  if new_latest_received_nonce ≤ lane.latest_received_nonce then .ok lane
  else if lane.latest_generated_nonce < new_latest_received_nonce then .error .NonceNotInFlight
  else
    .ok { latest_received_nonce := new_latest_received_nonce
          latest_generated_nonce := lane.latest_generated_nonce
          queued := lane.queued.drop (new_latest_received_nonce - lane.latest_received_nonce) }

/-- Modelled from the spec: a straight-line run of `enqueue` calls (property
"Nonce monotonicity", section 8).  Returns the final lane and the list of
nonces returned by the successful calls, in call order; failed calls leave
the lane unchanged and return nothing. -/
def runEnqueues (cfg : OutboundConfig) (lane : OutboundLaneData) :
    List MessagePayload → OutboundLaneData × List Nat
  | [] => (lane, [])
  | p :: ps =>
    match enqueue cfg lane p with
    | .ok (n, lane1) =>
      let r := runEnqueues cfg lane1 ps
      (r.1, n :: r.2)
    | .error _ => runEnqueues cfg lane ps

/-! ## InboundLane (spec sections 3 and 4.4; code absent from src/) -/

/-- Modelled from the spec: per-deployment inbound-lane configuration
(section 6): maximum unrewarded-relayer entries, maximum
undelivered-but-unconfirmed nonce span, and the receiving chain's payload
size/weight acceptance check (`verify_dispatch_weight`-shaped). -/
structure InboundConfig where
  maxUnrewardedRelayerEntries : Nat
  maxUnconfirmedMessages : Nat
  payloadAcceptable : MessagePayload → Bool

/-- The inbound configuration of the test runtime:
`MaxUnrewardedRelayerEntriesAtInboundLane = ConstU64<16>` and
`MaxUnconfirmedMessagesAtInboundLane = ConstU64<16>` (mock.rs lines 217-218),
with the bridged chain's `verify_dispatch_weight` as the payload check. -/
def testInboundConfig : InboundConfig :=
  ⟨16, 16, verify_dispatch_weight⟩

/-- Modelled from the spec: `UnrewardedRelayerEntry` (section 3): which
relayer delivered which contiguous nonce range (`first` to `last`, both
inclusive) since the last confirmation. -/
structure UnrewardedRelayerEntry where
  relayer : Nat
  first : Nat
  last : Nat
deriving DecidableEq

/-- Modelled from the spec: `InboundLaneData` (section 3): the highest
acknowledged nonce and the ordered unrewarded-relayer entries. -/
structure InboundLaneData where
  last_confirmed_nonce : Nat
  relayers : List UnrewardedRelayerEntry
deriving DecidableEq

/-- Modelled from the spec: a fresh inbound lane. -/
def freshInboundLane : InboundLaneData := ⟨0, []⟩

/-- Highest nonce recorded after `n`, walking the entry list: the `last`
of the final entry, or `n` itself when there are no entries. -/
def lastRecorded (n : Nat) : List UnrewardedRelayerEntry → Nat
  | [] => n
  | e :: rest => lastRecorded e.last rest

/-- Modelled from the spec: the highest nonce delivered so far on an inbound
lane (the end of the last unrewarded range, or `last_confirmed_nonce` when
no delivery is pending confirmation). -/
def last_delivered_nonce (lane : InboundLaneData) : Nat :=
  lastRecorded lane.last_confirmed_nonce lane.relayers

/-- Modelled from the spec: the total number of messages already received
since the last confirmation — the sum of the unrewarded entry range sizes
(section 4.4's contiguity constraint). -/
def total_already_received (lane : InboundLaneData) : Nat :=
  (lane.relayers.map (fun e => e.last + 1 - e.first)).sum

/-- Modelled from the spec: append the newly delivered contiguous range
`[first, last]` for `relayer`, merging with the immediately preceding entry
when it belongs to the same relayer, to bound entry growth (section 4.4). -/
def appendRange (relayer first last : Nat) :
    List UnrewardedRelayerEntry → List UnrewardedRelayerEntry
  | [] => [⟨relayer, first, last⟩]
  | e :: rest =>
    match rest with
    | [] =>
      if e.relayer = relayer then [{ e with last := last }]
      else [e, ⟨relayer, first, last⟩]
    | _ :: _ => e :: appendRange relayer first last rest

/-- Modelled from the spec: `InboundLane.receive_batch` (section 4.4).
Order check first (`InvalidNonceOrder`), then the two capacity checks
(`LaneCapacityExceeded`), all before any mutation; an empty batch at the
expected nonce is a no-op success.  Payloads failing the receiving chain's
size/weight check are recorded as consumed-and-rejected, never dropped. -/
def receive_batch (cfg : InboundConfig) (lane : InboundLaneData)
    (relayer first_nonce : Nat) (payloads : List MessagePayload) :
    Except LaneError (List DispatchOutcome × InboundLaneData) :=
  if first_nonce ≠ lane.last_confirmed_nonce + total_already_received lane + 1 then
    .error .InvalidNonceOrder
  else if payloads.isEmpty then .ok ([], lane)
  else if cfg.maxUnrewardedRelayerEntries <
      (appendRange relayer first_nonce (first_nonce + payloads.length - 1)
        lane.relayers).length then
    .error .LaneCapacityExceeded
  else if cfg.maxUnconfirmedMessages <
      first_nonce + payloads.length - 1 - lane.last_confirmed_nonce then
    .error .LaneCapacityExceeded
  else
    .ok (payloads.map (fun p =>
           if cfg.payloadAcceptable p then DispatchOutcome.Dispatched
           else DispatchOutcome.Rejected),
         InboundLaneData.mk lane.last_confirmed_nonce
           (appendRange relayer first_nonce (first_nonce + payloads.length - 1)
             lane.relayers))

/-- Modelled from the spec: split the unrewarded entries at confirmed nonce
`new` (section 4.4's `confirm`): the first component is the removed-and-
returned part (entries fully covered, plus the covered half of a split
entry), the second is the retained remainder. -/
def splitConfirmed (new : Nat) :
    List UnrewardedRelayerEntry →
      List UnrewardedRelayerEntry × List UnrewardedRelayerEntry
  | [] => ([], [])
  | e :: rest =>
    if e.last ≤ new then
      let r := splitConfirmed new rest
      (e :: r.1, r.2)
    else if e.first ≤ new then
      ([{ e with last := new }], { e with first := new + 1 } :: rest)
    else ([], e :: rest)

/-- Modelled from the spec: `InboundLane.confirm` (section 4.4).  Fails with
`NonceNotInFlight` when the confirmed nonce exceeds the highest recorded
nonce; otherwise removes and returns the covered entries (splitting a
partially covered one) and advances `last_confirmed_nonce` (never
regressing it). -/
def confirm (lane : InboundLaneData) (new_last_confirmed_nonce : Nat) :
    Except LaneError (List UnrewardedRelayerEntry × InboundLaneData) :=
  if last_delivered_nonce lane < new_last_confirmed_nonce then .error .NonceNotInFlight
  else
    let r := splitConfirmed new_last_confirmed_nonce lane.relayers
    .ok (r.1,
      { last_confirmed_nonce := max lane.last_confirmed_nonce new_last_confirmed_nonce
        relayers := r.2 })

/-! ## Reward ledger and confirmation protocol (spec sections 4.6 and 4.7) -/

/-- Modelled from the spec: the `RelayerRewardLedger` for one lane — an
association list from relayer identity to accumulated reward credit
(section 3; entries are created on first credit, never destroyed). -/
abbrev RewardLedger := List (Nat × Nat)

/-- Modelled from the spec: `RelayerRewardLedger.credit` (section 4.7):
saturating add, capping at the numeric maximum (`u64::MAX`, the balance
width of the test runtime) rather than wrapping. -/
def credit : RewardLedger → Nat → Nat → RewardLedger
  | [], relayer, amount => [(relayer, min amount U64_MAX)]
  | (r, v) :: rest, relayer, amount =>
    if r = relayer then (r, satAdd v amount) :: rest
    else (r, v) :: credit rest relayer amount

/-- Modelled from the spec: step 4 of `DeliveryConfirmationProtocol`
(section 4.6): for every unrewarded entry the snapshot reveals as
now-confirmed — the portion of its range inside
`(oldReceived, newConfirmed]` — credit the pluggable pure reward function
of the messages delivered.  Entries with an empty newly-confirmed portion
credit nothing. -/
def creditEntries (reward : Nat → Nat) (oldReceived newConfirmed : Nat) :
    RewardLedger → List UnrewardedRelayerEntry → RewardLedger
  | ledger, [] => ledger
  | ledger, e :: rest =>
    let lo := max e.first (oldReceived + 1)
    let hi := min e.last newConfirmed
    let ledger1 := if lo ≤ hi then credit ledger e.relayer (reward (hi + 1 - lo)) else ledger
    creditEntries reward oldReceived newConfirmed ledger1 rest

/-- Modelled from the spec: `DeliveryConfirmationProtocol` (section 4.6).
Step 1: resolve the finalized state root (`HeaderNotFinalized` if absent);
step 2: the storage-proof verifier either yields an `InboundLaneData`
snapshot or fails (`InvalidProof`) — the external verifier is modelled by
the `Option` argument; step 3: delegate to `prune_confirmed`; step 4:
credit rewards for the newly confirmed entry portions. -/
def confirm_delivery (reward : Nat → Nat) (lane : OutboundLaneData)
    (ledger : RewardLedger) (finalizedRoot : Option Unit)
    (snapshot : Option InboundLaneData) :
    Except LaneError (OutboundLaneData × RewardLedger) :=
  match finalizedRoot with
  | none => .error .HeaderNotFinalized
  | some _ =>
    match snapshot with
    | none => .error .InvalidProof
    | some snap =>
      match prune_confirmed lane snap.last_confirmed_nonce with
      | .error e => .error e
      | .ok lane1 =>
        .ok (lane1,
          creditEntries reward lane.latest_received_nonce snap.last_confirmed_nonce
            ledger snap.relayers)

/-- Modelled from the spec: `MessageDeliveryProtocol` (section 4.5).
Step 1: resolve the finalized state root (`HeaderNotFinalized` if absent);
step 2: verify the storage proof (`InvalidProof` on verifier failure, the
external verifier being modelled by the `verified` flag); step 3: decode
the payload list before any dispatch (`PayloadDecodeError` rejects the
whole batch); step 4: delegate to `receive_batch`, propagating its
failures unchanged. -/
def deliver_messages (cfg : InboundConfig) (lane : InboundLaneData)
    (finalizedRoot : Option Unit) (verified : Bool)
    (decoded : Option (Nat × Nat × List MessagePayload)) :
    Except LaneError (List DispatchOutcome × InboundLaneData) :=
  match finalizedRoot with
  | none => .error .HeaderNotFinalized
  | some _ =>
    if verified = false then .error .InvalidProof
    else
      match decoded with
      | none => .error .PayloadDecodeError
      | some (relayer, first_nonce, payloads) =>
        receive_batch cfg lane relayer first_nonce payloads

/-! ## Run semantics for the inbound lane -/

/-- An operation submitted to an inbound lane: a delivery batch or a
confirmation. -/
inductive InLaneOp where
  | recv (relayer first_nonce : Nat) (payloads : List MessagePayload)
  | conf (new_last_confirmed_nonce : Nat)

/-- One inbound-lane transaction: the resulting lane, the unrewarded entries
returned by a successful `confirm`, and the number of nonces accepted by a
successful `receive_batch`.  A failed call leaves the lane unchanged and
returns/accepts nothing (spec section 7: a failed call leaves all lane
state unchanged). -/
def inboundStep (cfg : InboundConfig) (lane : InboundLaneData) :
    InLaneOp → InboundLaneData × List UnrewardedRelayerEntry × Nat
  | .recv relayer first_nonce payloads =>
    match receive_batch cfg lane relayer first_nonce payloads with
    | .ok (_, lane1) => (lane1, [], payloads.length)
    | .error _ => (lane, [], 0)
  | .conf n =>
    match confirm lane n with
    | .ok (ret, lane1) => (lane1, ret, 0)
    | .error _ => (lane, [], 0)

/-- A run of inbound-lane transactions: the final lane, the concatenation of
all entries ever returned by `confirm`, and the total number of nonces
accepted by `receive_batch`. -/
def inboundRun (cfg : InboundConfig) (lane : InboundLaneData) :
    List InLaneOp → InboundLaneData × List UnrewardedRelayerEntry × Nat
  | [] => (lane, [], 0)
  | op :: ops =>
    let s := inboundStep cfg lane op
    let r := inboundRun cfg s.1 ops
    (r.1, s.2.1 ++ r.2.1, s.2.2 + r.2.2)

/-- The nonces covered by one unrewarded entry, in increasing order. -/
def entryNonces (e : UnrewardedRelayerEntry) : List Nat :=
  List.range' e.first (e.last + 1 - e.first)

/-- The nonces covered by a list of unrewarded entries, in list order. -/
def noncesOf (es : List UnrewardedRelayerEntry) : List Nat :=
  es.flatMap entryNonces

/-- The structural invariant of `InboundLaneData.relayers` (spec section 3):
starting from nonce `n`, every entry is nonempty, begins exactly one past
the previous recorded nonce, and the entries chain in strictly increasing,
contiguous, non-overlapping order. -/
def chainedFrom : Nat → List UnrewardedRelayerEntry → Bool
  | _, [] => true
  | n, e :: rest =>
    decide (e.first = n + 1) && decide (n < e.last) && chainedFrom e.last rest

/-- The full `InboundLaneData` invariant (spec sections 3 and 4.4): chained
entries, entry count within the unrewarded-relayer bound, and
undelivered-but-unconfirmed span within the unconfirmed-messages bound. -/
def inboundInvariant (cfg : InboundConfig) (lane : InboundLaneData) : Bool :=
  chainedFrom lane.last_confirmed_nonce lane.relayers &&
    decide (lane.relayers.length ≤ cfg.maxUnrewardedRelayerEntries) &&
    decide (last_delivered_nonce lane - lane.last_confirmed_nonce ≤
      cfg.maxUnconfirmedMessages)

/-! ## Combined single-chain state for the atomicity property -/

/-- The combined mutable state the core's operations touch: one outbound
lane, one inbound lane and the reward ledger. -/
structure BridgeState where
  outbound : OutboundLaneData
  inbound : InboundLaneData
  ledger : RewardLedger
deriving DecidableEq

/-- Every operation of the core, with the external collaborators' answers
(finalized root, verifier verdict, decoder output) supplied as data. -/
inductive BridgeOp where
  | enq (p : MessagePayload)
  | prune (n : Nat)
  | recv (relayer first_nonce : Nat) (payloads : List MessagePayload)
  | conf (n : Nat)
  | deliver (finalizedRoot : Option Unit) (verified : Bool)
      (decoded : Option (Nat × Nat × List MessagePayload))
  | confirmDeliv (finalizedRoot : Option Unit) (snapshot : Option InboundLaneData)

/-- One transaction of the core over the combined state: the new state and
the call's verdict.  On success the relevant components are replaced; on
failure the returned state is the lane state the failing operation left
behind — which, because every modelled operation performs all checks before
constructing any new state, is the input state itself (the content of the
atomicity theorem below). -/
def bridgeStep (ocfg : OutboundConfig) (icfg : InboundConfig) (reward : Nat → Nat)
    (s : BridgeState) : BridgeOp → BridgeState × Except LaneError Unit
  | .enq p =>
    match enqueue ocfg s.outbound p with
    | .ok (_, lane1) => ({ s with outbound := lane1 }, .ok ())
    | .error e => (s, .error e)
  | .prune n =>
    match prune_confirmed s.outbound n with
    | .ok lane1 => ({ s with outbound := lane1 }, .ok ())
    | .error e => (s, .error e)
  | .recv relayer first_nonce payloads =>
    match receive_batch icfg s.inbound relayer first_nonce payloads with
    | .ok (_, lane1) => ({ s with inbound := lane1 }, .ok ())
    | .error e => (s, .error e)
  | .conf n =>
    match confirm s.inbound n with
    | .ok (_, lane1) => ({ s with inbound := lane1 }, .ok ())
    | .error e => (s, .error e)
  | .deliver root verified decoded =>
    match deliver_messages icfg s.inbound root verified decoded with
    | .ok (_, lane1) => ({ s with inbound := lane1 }, .ok ())
    | .error e => (s, .error e)
  | .confirmDeliv root snapshot =>
    match confirm_delivery reward s.outbound s.ledger root snapshot with
    | .ok (lane1, ledger1) => ({ s with outbound := lane1, ledger := ledger1 }, .ok ())
    | .error e => (s, .error e)

/-! ## Weight table (`modules/messages/src/weights.rs`) -/

/-- `frame_support::weights::Weight`: two saturating `u64` components. -/
structure Weight where
  ref_time : Nat
  proof_size : Nat
deriving DecidableEq

/-- `Weight::from_parts` (components are `u64` literals in the table). -/
def Weight.from_parts (r p : Nat) : Weight := ⟨r, p⟩

/-- `Weight::saturating_add`: component-wise saturating addition. -/
def Weight.saturating_add (a b : Weight) : Weight :=
  ⟨satAdd a.ref_time b.ref_time, satAdd a.proof_size b.proof_size⟩

/-- `frame_support::weights::RuntimeDbWeight`: per-operation database
access costs. -/
structure RuntimeDbWeight where
  read : Nat
  write : Nat
deriving DecidableEq

/-- `RuntimeDbWeight::reads`: `Weight::from_parts(read.saturating_mul(r), 0)`. -/
def RuntimeDbWeight.reads (db : RuntimeDbWeight) (r : Nat) : Weight :=
  ⟨satMul db.read r, 0⟩

/-- `RuntimeDbWeight::writes`: `Weight::from_parts(write.saturating_mul(w), 0)`. -/
def RuntimeDbWeight.writes (db : RuntimeDbWeight) (w : Nat) : Weight :=
  ⟨satMul db.write w, 0⟩

/-- `frame_support::weights::constants::RocksDbWeight`:
`read = 25_000` and `write = 100_000` nanoseconds, at
`WEIGHT_REF_TIME_PER_NANOS = 1_000` picoseconds each. -/
def RocksDbWeight : RuntimeDbWeight := ⟨25000 * 1000, 100000 * 1000⟩

/-- The eight-row weight table, parameterized by the runtime's `DbWeight`
(the shape of `impl WeightInfo for BridgeWeight<T>`, weights.rs lines
67-282; `T::DbWeight::get()` is the `db` argument). -/
structure WeightTable where
  receive_single_message_proof : Weight
  receive_two_messages_proof : Weight
  receive_single_message_proof_with_outbound_lane_state : Weight
  receive_single_message_proof_1_kb : Weight
  receive_single_message_proof_16_kb : Weight
  receive_delivery_proof_for_single_message : Weight
  receive_delivery_proof_for_two_messages_by_single_relayer : Weight
  receive_delivery_proof_for_two_messages_by_two_relayers : Weight
deriving DecidableEq

/-- `impl<T: frame_system::Config> WeightInfo for BridgeWeight<T>`
(weights.rs lines 67-282), with `T::DbWeight::get()` abstracted as `db`. -/
def BridgeWeight (db : RuntimeDbWeight) : WeightTable :=
  { receive_single_message_proof :=
      ((Weight.from_parts 48937000 55198).saturating_add (db.reads 4)).saturating_add
        (db.writes 2)
    receive_two_messages_proof :=
      ((Weight.from_parts 85093000 55198).saturating_add (db.reads 4)).saturating_add
        (db.writes 2)
    receive_single_message_proof_with_outbound_lane_state :=
      ((Weight.from_parts 55113000 55198).saturating_add (db.reads 4)).saturating_add
        (db.writes 2)
    receive_single_message_proof_1_kb :=
      ((Weight.from_parts 55804000 54695).saturating_add (db.reads 3)).saturating_add
        (db.writes 1)
    receive_single_message_proof_16_kb :=
      ((Weight.from_parts 106715000 54695).saturating_add (db.reads 3)).saturating_add
        (db.writes 1)
    receive_delivery_proof_for_single_message :=
      ((Weight.from_parts 43168000 8094).saturating_add (db.reads 4)).saturating_add
        (db.writes 2)
    receive_delivery_proof_for_two_messages_by_single_relayer :=
      ((Weight.from_parts 41140000 8094).saturating_add (db.reads 4)).saturating_add
        (db.writes 2)
    receive_delivery_proof_for_two_messages_by_two_relayers :=
      ((Weight.from_parts 43494000 10629).saturating_add (db.reads 5)).saturating_add
        (db.writes 3) }

/-- `impl WeightInfo for ()` (weights.rs lines 285-500): the same rows with
`RocksDbWeight::get()` in place of `T::DbWeight::get()`. -/
def unitWeightInfo : WeightTable :=
  { receive_single_message_proof :=
      ((Weight.from_parts 48937000 55198).saturating_add
        (RocksDbWeight.reads 4)).saturating_add (RocksDbWeight.writes 2)
    receive_two_messages_proof :=
      ((Weight.from_parts 85093000 55198).saturating_add
        (RocksDbWeight.reads 4)).saturating_add (RocksDbWeight.writes 2)
    receive_single_message_proof_with_outbound_lane_state :=
      ((Weight.from_parts 55113000 55198).saturating_add
        (RocksDbWeight.reads 4)).saturating_add (RocksDbWeight.writes 2)
    receive_single_message_proof_1_kb :=
      ((Weight.from_parts 55804000 54695).saturating_add
        (RocksDbWeight.reads 3)).saturating_add (RocksDbWeight.writes 1)
    receive_single_message_proof_16_kb :=
      ((Weight.from_parts 106715000 54695).saturating_add
        (RocksDbWeight.reads 3)).saturating_add (RocksDbWeight.writes 1)
    receive_delivery_proof_for_single_message :=
      ((Weight.from_parts 43168000 8094).saturating_add
        (RocksDbWeight.reads 4)).saturating_add (RocksDbWeight.writes 2)
    receive_delivery_proof_for_two_messages_by_single_relayer :=
      ((Weight.from_parts 41140000 8094).saturating_add
        (RocksDbWeight.reads 4)).saturating_add (RocksDbWeight.writes 2)
    receive_delivery_proof_for_two_messages_by_two_relayers :=
      ((Weight.from_parts 43494000 10629).saturating_add
        (RocksDbWeight.reads 5)).saturating_add (RocksDbWeight.writes 3) }

/-! ## Theorems -/

/-- C8: `BridgedChain::verify_dispatch_weight(p)` returns true iff
`5 ≤ p.len() ≤ 2048` (both bounds inclusive), and the verdict depends only
on the payload's byte length, never on its contents. -/
theorem verify_dispatch_weight_length_bounds (p : MessagePayload) :
    (verify_dispatch_weight p = true ↔ 5 ≤ p.length ∧ p.length ≤ 2048) ∧
    (∀ q : MessagePayload, p.length = q.length →
      verify_dispatch_weight p = verify_dispatch_weight q) := by
  constructor
  · simp [verify_dispatch_weight, BRIDGED_CHAIN_MIN_EXTRINSIC_WEIGHT,
      BRIDGED_CHAIN_MAX_EXTRINSIC_WEIGHT]
  · intro q h
    simp [verify_dispatch_weight, h]

/-- Witness for C8 at payloads of length 5, 2048 and 5 (different contents). -/
theorem verify_dispatch_weight_length_bounds_witness :
    verify_dispatch_weight (List.replicate 5 0) = true ∧
    verify_dispatch_weight (List.replicate 2048 0) = true ∧
    verify_dispatch_weight (List.replicate 5 0) = verify_dispatch_weight (List.replicate 5 7) :=
  ⟨(verify_dispatch_weight_length_bounds (List.replicate 5 0)).1.mpr
     (by simp only [List.length_replicate]; omega),
   (verify_dispatch_weight_length_bounds (List.replicate 2048 0)).1.mpr
     (by simp only [List.length_replicate]; omega),
   (verify_dispatch_weight_length_bounds (List.replicate 5 0)).2 (List.replicate 5 7)
     (by simp only [List.length_replicate])⟩

/-- C10: `ThisChain::is_message_accepted(origin, lane)` is true iff the lane
is `TEST_LANE_ID`, and its verdict never depends on the sending origin. -/
theorem is_message_accepted_lane_only (o : ThisChainCallOrigin) (lane : LaneId) :
    (is_message_accepted o lane = true ↔ lane = TEST_LANE_ID) ∧
    (∀ o2 : ThisChainCallOrigin,
      is_message_accepted o lane = is_message_accepted o2 lane) := by
  refine ⟨?_, fun _ => rfl⟩
  simp [is_message_accepted]

/-- Witness for C10: accepted on the test lane; origin-independent on
another lane for two distinct origins. -/
theorem is_message_accepted_lane_only_witness :
    is_message_accepted .root TEST_LANE_ID = true ∧
    is_message_accepted .root ⟨1, 0, 0, 0⟩ = is_message_accepted (.signed 7) ⟨1, 0, 0, 0⟩ :=
  ⟨(is_message_accepted_lane_only .root TEST_LANE_ID).1.mpr rfl,
   (is_message_accepted_lane_only .root ⟨1, 0, 0, 0⟩).2 (.signed 7)⟩

/-- C9: for any runtime whose `DbWeight` equals `RocksDbWeight`, the
`BridgeWeight<T>` table and the `impl WeightInfo for ()` table are
element-wise equal across all eight methods. -/
theorem bridge_weight_matches_unit_impl (db : RuntimeDbWeight)
    (h : db = RocksDbWeight) : BridgeWeight db = unitWeightInfo := by
  subst h; rfl

/-- Witness for C9 at the `RocksDbWeight` instantiation itself. -/
theorem bridge_weight_matches_unit_impl_witness :
    BridgeWeight RocksDbWeight = unitWeightInfo :=
  bridge_weight_matches_unit_impl RocksDbWeight rfl

/-- C2: `receive_batch` with a `first_nonce` different from
`last_confirmed_nonce + total_already_received + 1` always fails with
`InvalidNonceOrder`, and the transaction leaves the `InboundLaneData`
exactly as it was. -/
theorem receive_batch_wrong_nonce_rejected (cfg : InboundConfig)
    (lane : InboundLaneData) (relayer first_nonce : Nat)
    (payloads : List MessagePayload)
    (h : first_nonce ≠ lane.last_confirmed_nonce + total_already_received lane + 1) :
    receive_batch cfg lane relayer first_nonce payloads = .error .InvalidNonceOrder ∧
    inboundStep cfg lane (.recv relayer first_nonce payloads) = (lane, [], 0) := by
  have h1 : receive_batch cfg lane relayer first_nonce payloads
      = .error .InvalidNonceOrder := by
    simp [receive_batch, h]
  exact ⟨h1, by simp [inboundStep, h1]⟩

/-- Witness for C2: delivering at nonce 2 to a fresh lane (which expects
nonce 1) is rejected without a state change. -/
theorem receive_batch_wrong_nonce_rejected_witness :
    receive_batch testInboundConfig freshInboundLane 1 2 [[0, 0, 0, 0, 0]]
        = .error .InvalidNonceOrder ∧
    inboundStep testInboundConfig freshInboundLane (.recv 1 2 [[0, 0, 0, 0, 0]])
        = (freshInboundLane, [], 0) :=
  receive_batch_wrong_nonce_rejected testInboundConfig freshInboundLane 1 2 _ (by decide)

/-- A stale confirmation (`newConfirmed ≤ oldReceived`) credits nothing:
every entry's newly-confirmed portion is empty. -/
theorem creditEntries_stale (reward : Nat → Nat) (oldReceived newConfirmed : Nat)
    (h : newConfirmed ≤ oldReceived) (ledger : RewardLedger)
    (es : List UnrewardedRelayerEntry) :
    creditEntries reward oldReceived newConfirmed ledger es = ledger := by
  induction es generalizing ledger with
  | nil => rfl
  | cons e rest ih =>
    have hno : ¬ (max e.first (oldReceived + 1) ≤ min e.last newConfirmed) := by omega
    simp only [creditEntries, hno, if_false]
    exact ih ledger

/-- A successful `prune_confirmed` leaves `latest_received_nonce` at or above
the confirmed nonce. -/
theorem prune_confirmed_ok_le (lane lane1 : OutboundLaneData) (n : Nat)
    (h : prune_confirmed lane n = .ok lane1) :
    n ≤ lane1.latest_received_nonce := by
  unfold prune_confirmed at h
  split at h
  · next hle =>
    simp only [Except.ok.injEq] at h
    subst h; exact hle
  · split at h
    · exact absurd h (by simp)
    · next h2 =>
      simp only [Except.ok.injEq] at h
      subst h; simp

/-- C3: re-running the delivery-confirmation path with a nonce at or below
the current `latest_received_nonce` is a no-op success — `prune_confirmed`
returns the lane unchanged and `confirm_delivery` changes neither the lane
nor the reward ledger — and in particular a second submission of the same
delivery proof after a successful one leaves everything exactly as the
first left it. -/
theorem confirmation_idempotent (reward : Nat → Nat)
    (lane lane1 : OutboundLaneData) (ledger ledger1 : RewardLedger)
    (snap : InboundLaneData) :
    (snap.last_confirmed_nonce ≤ lane.latest_received_nonce →
      prune_confirmed lane snap.last_confirmed_nonce = .ok lane ∧
      confirm_delivery reward lane ledger (some ()) (some snap) = .ok (lane, ledger)) ∧
    (confirm_delivery reward lane ledger (some ()) (some snap) = .ok (lane1, ledger1) →
      confirm_delivery reward lane1 ledger1 (some ()) (some snap)
        = .ok (lane1, ledger1)) := by
  constructor
  · intro hle
    have hp : prune_confirmed lane snap.last_confirmed_nonce = .ok lane := by
      unfold prune_confirmed
      simp [hle]
    refine ⟨hp, ?_⟩
    simp only [confirm_delivery]
    rw [hp]
    rw [creditEntries_stale reward _ _ hle ledger snap.relayers]
  · intro h
    simp only [confirm_delivery] at h
    cases hp : prune_confirmed lane snap.last_confirmed_nonce with
    | error e => rw [hp] at h; exact absurd h (by simp)
    | ok lane2 =>
      rw [hp] at h
      simp only [Except.ok.injEq, Prod.mk.injEq] at h
      obtain ⟨hl, _⟩ := h
      have hle : snap.last_confirmed_nonce ≤ lane1.latest_received_nonce := by
        have h2 := prune_confirmed_ok_le lane lane2 snap.last_confirmed_nonce hp
        rw [hl] at h2
        exact h2
      have hp1 : prune_confirmed lane1 snap.last_confirmed_nonce = .ok lane1 := by
        unfold prune_confirmed
        simp [hle]
      simp only [confirm_delivery]
      rw [hp1]
      rw [creditEntries_stale reward _ _ hle ledger1 snap.relayers]

/-- Witness for C3: a stale confirmation (nonce 3 against a lane already at
nonce 5) is a no-op, and replaying a successful confirmation (nonce 4
against a lane at 2, crediting relayer 9 for two messages) is a no-op. -/
theorem confirmation_idempotent_witness :
    (prune_confirmed ⟨5, 5, []⟩ 3 = .ok ⟨5, 5, []⟩ ∧
      confirm_delivery (fun n => n * 10) ⟨5, 5, []⟩ [] (some ()) (some ⟨3, []⟩)
        = .ok (⟨5, 5, []⟩, [])) ∧
    confirm_delivery (fun n => n * 10) ⟨4, 5, []⟩ [(9, 20)] (some ())
        (some ⟨4, [⟨9, 3, 4⟩]⟩) = .ok (⟨4, 5, []⟩, [(9, 20)]) :=
  ⟨(confirmation_idempotent (fun n => n * 10) ⟨5, 5, []⟩ ⟨5, 5, []⟩ [] []
      ⟨3, []⟩).1 (by decide),
   (confirmation_idempotent (fun n => n * 10) ⟨2, 5, []⟩ ⟨4, 5, []⟩ [] [(9, 20)]
      ⟨4, [⟨9, 3, 4⟩]⟩).2 rfl⟩

/-- The nonces returned by a straight-line run of `enqueue` calls form the
contiguous block starting one past the lane's current
`latest_generated_nonce`. -/
theorem runEnqueues_nonces (cfg : OutboundConfig) (ps : List MessagePayload)
    (lane : OutboundLaneData) :
    (runEnqueues cfg lane ps).2 =
      List.range' (lane.latest_generated_nonce + 1)
        (runEnqueues cfg lane ps).2.length := by
  induction ps generalizing lane with
  | nil => rfl
  | cons p ps ih =>
    unfold runEnqueues
    cases he : enqueue cfg lane p with
    | error e => exact ih lane
    | ok v =>
      obtain ⟨n, lane1⟩ := v
      have hn : n = lane.latest_generated_nonce + 1 ∧
          lane1.latest_generated_nonce = lane.latest_generated_nonce + 1 := by
        unfold enqueue at he
        split at he
        · exact absurd he (by simp)
        · split at he
          · exact absurd he (by simp)
          · simp only [Except.ok.injEq, Prod.mk.injEq] at he
            obtain ⟨h1, h2⟩ := he
            exact ⟨h1.symm, by rw [← h2]⟩
      obtain ⟨hn1, hn2⟩ := hn
      simp only [List.length_cons]
      rw [List.range'_succ]
      have := ih lane1
      rw [hn2] at this
      rw [hn1, ← this]

/-- C4: over any sequence of `enqueue` calls on a fresh outbound lane, the
nonces returned by the successful calls are exactly `1, 2, 3, …` in order:
strictly increasing, and the first successful call returns nonce 1. -/
theorem enqueue_nonce_monotonic (cfg : OutboundConfig) (ps : List MessagePayload) :
    (runEnqueues cfg freshOutboundLane ps).2 =
      List.range' 1 (runEnqueues cfg freshOutboundLane ps).2.length ∧
    List.Pairwise (· < ·) (runEnqueues cfg freshOutboundLane ps).2 ∧
    ((runEnqueues cfg freshOutboundLane ps).2 ≠ [] →
      (runEnqueues cfg freshOutboundLane ps).2.head? = some 1) := by
  have h := runEnqueues_nonces cfg ps freshOutboundLane
  refine ⟨h, ?_, ?_⟩
  · rw [h]; exact List.pairwise_lt_range' 1 _
  · intro hne
    have hlen : (runEnqueues cfg freshOutboundLane ps).2.length ≠ 0 := by
      intro h0
      exact hne (List.length_eq_zero.mp h0)
    obtain ⟨k, hk⟩ := Nat.exists_eq_succ_of_ne_zero hlen
    rw [h, hk, List.range'_succ]
    rfl

/-- Witness for C4: three enqueues on a fresh lane with capacity 32 return
nonces `[1, 2, 3]`. -/
theorem enqueue_nonce_monotonic_witness :
    (runEnqueues ⟨32, 1024⟩ freshOutboundLane [[1], [2], [3]]).2.head? = some 1 :=
  (enqueue_nonce_monotonic ⟨32, 1024⟩ [[1], [2], [3]]).2.2 (by decide)

/-- C5: every operation of the core performs all of its checks before any
mutation: whenever a transaction returns an error, the combined lane,
ledger and queue state after the transaction is exactly the input state. -/
theorem error_leaves_state_unchanged (ocfg : OutboundConfig) (icfg : InboundConfig)
    (reward : Nat → Nat) (s : BridgeState) (op : BridgeOp) (e : LaneError)
    (h : (bridgeStep ocfg icfg reward s op).2 = .error e) :
    (bridgeStep ocfg icfg reward s op).1 = s := by
  cases op with
  | enq p =>
    simp only [bridgeStep] at h ⊢
    cases he : enqueue ocfg s.outbound p with
    | ok v => obtain ⟨n, lane1⟩ := v; rw [he] at h; simp at h
    | error e2 => rfl
  | prune n =>
    simp only [bridgeStep] at h ⊢
    cases he : prune_confirmed s.outbound n with
    | ok lane1 => rw [he] at h; simp at h
    | error e2 => rfl
  | recv relayer first_nonce payloads =>
    simp only [bridgeStep] at h ⊢
    cases he : receive_batch icfg s.inbound relayer first_nonce payloads with
    | ok v => obtain ⟨outs, lane1⟩ := v; rw [he] at h; simp at h
    | error e2 => rfl
  | conf n =>
    simp only [bridgeStep] at h ⊢
    cases he : confirm s.inbound n with
    | ok v => obtain ⟨ret, lane1⟩ := v; rw [he] at h; simp at h
    | error e2 => rfl
  | deliver root verified decoded =>
    simp only [bridgeStep] at h ⊢
    cases he : deliver_messages icfg s.inbound root verified decoded with
    | ok v => obtain ⟨outs, lane1⟩ := v; rw [he] at h; simp at h
    | error e2 => rfl
  | confirmDeliv root snapshot =>
    simp only [bridgeStep] at h ⊢
    cases he : confirm_delivery reward s.outbound s.ledger root snapshot with
    | ok v => obtain ⟨lane1, ledger1⟩ := v; rw [he] at h; simp at h
    | error e2 => rfl

/-- Witness for C5: a `prune_confirmed` of an in-flight-free nonce fails
with `NonceNotInFlight` and leaves the whole state untouched. -/
theorem error_leaves_state_unchanged_witness :
    (bridgeStep ⟨32, 1024⟩ testInboundConfig (fun n => n)
        ⟨freshOutboundLane, freshInboundLane, []⟩ (.prune 5)).1
      = ⟨freshOutboundLane, freshInboundLane, []⟩ :=
  error_leaves_state_unchanged ⟨32, 1024⟩ testInboundConfig (fun n => n)
    ⟨freshOutboundLane, freshInboundLane, []⟩ (.prune 5) .NonceNotInFlight rfl

/-- C6: when the pending count of an outbound lane equals the configured
maximum (the mock's `MAXIMAL_PENDING_MESSAGES_AT_TEST_LANE = 32`), the next
`enqueue` fails with `QueueCapacityExceeded`; after one `prune_confirmed`
that advances `latest_received_nonce`, the next `enqueue` succeeds. -/
theorem enqueue_capacity_backpressure (cfg : OutboundConfig)
    (lane lane1 : OutboundLaneData) (p p2 : MessagePayload) (n : Nat)
    (hmax : cfg.maxPendingMessages = MAXIMAL_PENDING_MESSAGES_AT_TEST_LANE)
    (hfull : lane.latest_generated_nonce - lane.latest_received_nonce
      = cfg.maxPendingMessages)
    (hp : p.length ≤ cfg.maxPayloadSize) (hp2 : p2.length ≤ cfg.maxPayloadSize) :
    enqueue cfg lane p = .error .QueueCapacityExceeded ∧
    (prune_confirmed lane n = .ok lane1 →
      lane.latest_received_nonce < lane1.latest_received_nonce →
      enqueue cfg lane1 p2 =
        .ok (lane1.latest_generated_nonce + 1,
          { latest_received_nonce := lane1.latest_received_nonce
            latest_generated_nonce := lane1.latest_generated_nonce + 1
            queued := lane1.queued ++ [p2] })) := by
  constructor
  · unfold enqueue
    have h1 : ¬ cfg.maxPayloadSize < p.length := by omega
    simp [h1, hfull]
  · intro hpr hadv
    unfold prune_confirmed at hpr
    split at hpr
    · simp only [Except.ok.injEq] at hpr
      subst hpr
      exact absurd hadv (lt_irrefl _)
    · next hle =>
      split at hpr
      · exact absurd hpr (by simp)
      · next hgen =>
        simp only [Except.ok.injEq] at hpr
        subst hpr
        unfold enqueue
        have h1 : ¬ cfg.maxPayloadSize < p2.length := by omega
        have h2 : ¬ (lane.latest_generated_nonce - n = cfg.maxPendingMessages) := by
          omega
        simp [h1, h2]

/-- Witness for C6: a lane with 32 pending messages rejects the 33rd
enqueue; after confirming nonce 1 the next enqueue succeeds with nonce 33. -/
theorem enqueue_capacity_backpressure_witness :
    enqueue ⟨32, 1024⟩ ⟨0, 32, []⟩ [1] = .error .QueueCapacityExceeded ∧
    enqueue ⟨32, 1024⟩ ⟨1, 32, []⟩ [2] = .ok (33, ⟨1, 33, [[2]]⟩) :=
  ⟨(enqueue_capacity_backpressure ⟨32, 1024⟩ ⟨0, 32, []⟩ ⟨1, 32, []⟩ [1] [2] 1
      rfl rfl (by decide) (by decide)).1,
   (enqueue_capacity_backpressure ⟨32, 1024⟩ ⟨0, 32, []⟩ ⟨1, 32, []⟩ [1] [2] 1
      rfl rfl (by decide) (by decide)).2 rfl (by decide)⟩

/-! ### Structural lemmas about chained unrewarded-relayer entries -/

theorem noncesOf_append (a b : List UnrewardedRelayerEntry) :
    noncesOf (a ++ b) = noncesOf a ++ noncesOf b :=
  List.flatMap_append a b entryNonces

theorem noncesOf_cons (e : UnrewardedRelayerEntry)
    (rest : List UnrewardedRelayerEntry) :
    noncesOf (e :: rest) = entryNonces e ++ noncesOf rest :=
  List.flatMap_cons e rest entryNonces

/-- A chained entry list only moves the recorded nonce upward. -/
theorem chained_le (es : List UnrewardedRelayerEntry) :
    ∀ n, chainedFrom n es = true → n ≤ lastRecorded n es := by
  induction es with
  | nil => intro n _; exact Nat.le_refl n
  | cons e rest ih =>
    intro n h
    simp only [chainedFrom, Bool.and_eq_true, decide_eq_true_eq] at h
    obtain ⟨⟨_, h2⟩, h3⟩ := h
    have := ih e.last h3
    simp only [lastRecorded]
    omega

/-- For a chained entry list, the sum of the range sizes is exactly the
distance from the base nonce to the last recorded nonce. -/
theorem chained_sum (es : List UnrewardedRelayerEntry) :
    ∀ n, chainedFrom n es = true →
      n + (es.map (fun e => e.last + 1 - e.first)).sum = lastRecorded n es := by
  induction es with
  | nil => intro n _; simp [lastRecorded]
  | cons e rest ih =>
    intro n h
    simp only [chainedFrom, Bool.and_eq_true, decide_eq_true_eq] at h
    obtain ⟨⟨h1, h2⟩, h3⟩ := h
    have := ih e.last h3
    simp only [List.map_cons, List.sum_cons, lastRecorded]
    omega

/-- The nonces covered by a chained entry list form the contiguous block
from one past the base nonce up to the last recorded nonce. -/
theorem noncesOf_chained (es : List UnrewardedRelayerEntry) :
    ∀ n, chainedFrom n es = true →
      noncesOf es = List.range' (n + 1) (lastRecorded n es - n) := by
  induction es with
  | nil => intro n _; simp [noncesOf, lastRecorded]
  | cons e rest ih =>
    intro n h
    simp only [chainedFrom, Bool.and_eq_true, decide_eq_true_eq] at h
    obtain ⟨⟨h1, h2⟩, h3⟩ := h
    have hrest := ih e.last h3
    have hlast := chained_le rest e.last h3
    rw [noncesOf_cons, hrest]
    simp only [lastRecorded]
    have hent : entryNonces e = List.range' (n + 1) (e.last - n) := by
      unfold entryNonces
      rw [h1]
      congr 1
      omega
    rw [hent]
    have happ := List.range'_append (n + 1) (e.last - n)
      (lastRecorded e.last rest - e.last) 1
    have h5 : n + 1 + 1 * (e.last - n) = e.last + 1 := by omega
    have h6 : lastRecorded e.last rest - e.last + (e.last - n)
        = lastRecorded e.last rest - n := by omega
    rw [h5, h6] at happ
    exact happ

/-- Appending the newly delivered range `[D + 1, last]` (where `D` is the
last recorded nonce) keeps the entries chained, moves the recorded nonce to
`last`, and extends the covered nonces by exactly the new block. -/
theorem appendRange_spec (r last : Nat) (es : List UnrewardedRelayerEntry) :
    ∀ n, chainedFrom n es = true → lastRecorded n es < last →
      chainedFrom n (appendRange r (lastRecorded n es + 1) last es) = true ∧
      lastRecorded n (appendRange r (lastRecorded n es + 1) last es) = last ∧
      noncesOf (appendRange r (lastRecorded n es + 1) last es)
        = noncesOf es ++ List.range' (lastRecorded n es + 1) (last - lastRecorded n es) := by
  induction es with
  | nil =>
    intro n _ hd
    simp only [lastRecorded] at hd ⊢
    refine ⟨?_, ?_, ?_⟩
    · simp [appendRange, chainedFrom, hd]
    · simp [appendRange, lastRecorded]
    · simp only [appendRange, noncesOf, List.flatMap_cons, List.flatMap_nil,
        List.append_nil, List.nil_append, entryNonces]
      congr 1
      omega
  | cons e rest ih =>
    intro n h hd
    simp only [chainedFrom, Bool.and_eq_true, decide_eq_true_eq] at h
    obtain ⟨⟨h1, h2⟩, h3⟩ := h
    cases rest with
    | nil =>
      simp only [lastRecorded] at hd ⊢
      by_cases hr : e.relayer = r
      · simp only [appendRange, hr, if_true]
        refine ⟨?_, ?_, ?_⟩
        · simp only [chainedFrom, Bool.and_eq_true, decide_eq_true_eq]
          exact ⟨⟨h1, by omega⟩, trivial⟩
        · simp [lastRecorded]
        · simp only [noncesOf, List.flatMap_cons, List.flatMap_nil, List.append_nil]
          simp only [entryNonces]
          have happ := List.range'_append e.first (e.last + 1 - e.first)
            (last - e.last) 1
          have h5 : e.first + 1 * (e.last + 1 - e.first) = e.last + 1 := by omega
          have h6 : last - e.last + (e.last + 1 - e.first) = last + 1 - e.first := by
            omega
          rw [h5, h6] at happ
          exact happ.symm
      · simp only [appendRange, hr, if_false]
        refine ⟨?_, ?_, ?_⟩
        · simp only [chainedFrom, Bool.and_eq_true, decide_eq_true_eq]
          exact ⟨⟨h1, h2⟩, ⟨trivial, by omega⟩, trivial⟩
        · simp [lastRecorded]
        · simp only [noncesOf, List.flatMap_cons, List.flatMap_nil, List.append_nil]
          congr 1
          simp only [entryNonces]
          congr 1
          omega
    | cons e2 rest2 =>
      have hd2 : lastRecorded n (e :: e2 :: rest2) = lastRecorded e.last (e2 :: rest2) := rfl
      rw [hd2] at hd ⊢
      obtain ⟨ih1, ih2, ih3⟩ := ih e.last h3 hd
      have hstep : appendRange r (lastRecorded e.last (e2 :: rest2) + 1) last
            (e :: e2 :: rest2)
          = e :: appendRange r (lastRecorded e.last (e2 :: rest2) + 1) last
            (e2 :: rest2) := rfl
      refine ⟨?_, ?_, ?_⟩
      · rw [hstep]
        simp only [chainedFrom, Bool.and_eq_true, decide_eq_true_eq]
        exact ⟨⟨h1, h2⟩, ih1⟩
      · rw [hstep]
        exact ih2
      · rw [hstep, noncesOf_cons, ih3, noncesOf_cons e (e2 :: rest2),
          List.append_assoc]

/-- Splitting at a confirmed nonce loses and duplicates nothing: the
returned and retained parts together cover exactly the original nonces,
in order. -/
theorem splitConfirmed_nonces (new : Nat) (es : List UnrewardedRelayerEntry) :
    noncesOf (splitConfirmed new es).1 ++ noncesOf (splitConfirmed new es).2
      = noncesOf es := by
  induction es with
  | nil => rfl
  | cons e rest ih =>
    by_cases ha : e.last ≤ new
    · simp only [splitConfirmed, ha, if_true]
      rw [noncesOf_cons, noncesOf_cons, List.append_assoc, ih]
    · by_cases hb : e.first ≤ new
      · simp only [splitConfirmed, ha, hb, if_false, if_true]
        rw [noncesOf_cons, noncesOf_cons, noncesOf_cons]
        simp only [noncesOf, List.flatMap_nil, List.append_nil]
        rw [← List.append_assoc]
        congr 1
        simp only [entryNonces]
        have happ := List.range'_append e.first (new + 1 - e.first)
          (e.last - new) 1
        have h5 : e.first + 1 * (new + 1 - e.first) = new + 1 := by omega
        have h6 : e.last - new + (new + 1 - e.first) = e.last + 1 - e.first := by
          omega
        rw [h5, h6] at happ
        have h7 : e.last + 1 - (new + 1) = e.last - new := by omega
        rw [h7]
        exact happ
      · simp [splitConfirmed, ha, hb, noncesOf]

/-- Splitting at a confirmed nonce keeps the retained entries chained from
the advanced confirmation point. -/
theorem splitConfirmed_chained (new : Nat) (es : List UnrewardedRelayerEntry) :
    ∀ lc, chainedFrom lc es = true →
      chainedFrom (max lc new) (splitConfirmed new es).2 = true := by
  induction es with
  | nil => intro lc _; rfl
  | cons e rest ih =>
    intro lc h
    simp only [chainedFrom, Bool.and_eq_true, decide_eq_true_eq] at h
    obtain ⟨⟨h1, h2⟩, h3⟩ := h
    by_cases ha : e.last ≤ new
    · have htail := ih e.last h3
      have hm : max e.last new = new := by omega
      have hm2 : max lc new = new := by omega
      simp only [splitConfirmed, ha, if_true]
      rw [hm2]
      rw [hm] at htail
      exact htail
    · by_cases hb : e.first ≤ new
      · have hm : max lc new = new := by omega
        simp only [splitConfirmed, ha, hb, if_false, if_true]
        rw [hm]
        simp only [chainedFrom, Bool.and_eq_true, decide_eq_true_eq]
        exact ⟨⟨trivial, by omega⟩, h3⟩
      · have hm : max lc new = lc := by omega
        simp only [splitConfirmed, ha, hb, if_false]
        rw [hm]
        simp only [chainedFrom, Bool.and_eq_true, decide_eq_true_eq]
        exact ⟨⟨h1, h2⟩, h3⟩

/-- When the confirmed nonce is in flight, splitting does not move the last
recorded nonce. -/
theorem splitConfirmed_lastRecorded (new : Nat) (es : List UnrewardedRelayerEntry) :
    ∀ lc, chainedFrom lc es = true → new ≤ lastRecorded lc es →
      lastRecorded (max lc new) (splitConfirmed new es).2 = lastRecorded lc es := by
  induction es with
  | nil =>
    intro lc _ hle
    have h0 : (splitConfirmed new ([] : List UnrewardedRelayerEntry)).2 = [] := rfl
    rw [h0]
    simp only [lastRecorded] at hle ⊢
    omega
  | cons e rest ih =>
    intro lc h hle
    simp only [chainedFrom, Bool.and_eq_true, decide_eq_true_eq] at h
    obtain ⟨⟨h1, h2⟩, h3⟩ := h
    have hle2 : new ≤ lastRecorded e.last rest := hle
    by_cases ha : e.last ≤ new
    · have htail := ih e.last h3 hle2
      have hm : max lc new = max e.last new := by omega
      simp only [splitConfirmed, ha, if_true]
      rw [hm]
      exact htail
    · by_cases hb : e.first ≤ new
      · simp only [splitConfirmed, ha, hb, if_false, if_true]
        rfl
      · simp only [splitConfirmed, ha, hb, if_false]
        rfl

/-- Splitting never grows the retained entry list. -/
theorem splitConfirmed_length (new : Nat) (es : List UnrewardedRelayerEntry) :
    (splitConfirmed new es).2.length ≤ es.length := by
  induction es with
  | nil => simp [splitConfirmed]
  | cons e rest ih =>
    by_cases ha : e.last ≤ new
    · simp only [splitConfirmed, ha, if_true, List.length_cons]
      omega
    · by_cases hb : e.first ≤ new <;>
        simp [splitConfirmed, ha, hb]

/-- Case analysis on a successful `receive_batch`: either the batch was
empty and the lane is unchanged, or the batch arrived at the expected nonce,
passed both capacity checks, and the lane's entries were extended by the new
contiguous range. -/
theorem receive_batch_ok_elim (cfg : InboundConfig) (lane : InboundLaneData)
    (relayer first_nonce : Nat) (payloads : List MessagePayload)
    (outs : List DispatchOutcome) (lane1 : InboundLaneData)
    (he : receive_batch cfg lane relayer first_nonce payloads = .ok (outs, lane1)) :
    (payloads = [] ∧ lane1 = lane) ∨
    (payloads ≠ [] ∧
      first_nonce = lane.last_confirmed_nonce + total_already_received lane + 1 ∧
      lane1 = InboundLaneData.mk lane.last_confirmed_nonce
        (appendRange relayer first_nonce (first_nonce + payloads.length - 1)
          lane.relayers) ∧
      (appendRange relayer first_nonce (first_nonce + payloads.length - 1)
          lane.relayers).length ≤ cfg.maxUnrewardedRelayerEntries ∧
      first_nonce + payloads.length - 1 - lane.last_confirmed_nonce
        ≤ cfg.maxUnconfirmedMessages) := by
  unfold receive_batch at he
  split at he
  · exact absurd he (by simp)
  · next hf =>
    split at he
    · next hemp =>
      left
      simp only [Except.ok.injEq, Prod.mk.injEq] at he
      exact ⟨List.isEmpty_iff.mp hemp, he.2.symm⟩
    · next hemp =>
      split at he
      · exact absurd he (by simp)
      · next hcap1 =>
        split at he
        · exact absurd he (by simp)
        · next hcap2 =>
          right
          simp only [Except.ok.injEq, Prod.mk.injEq] at he
          refine ⟨?_, by omega, he.2.symm, by omega, by omega⟩
          intro hnil
          rw [hnil] at hemp
          exact hemp rfl

/-- Case analysis on a successful `confirm`: the confirmed nonce was in
flight, the returned entries are the covered part of the split, and the
retained lane keeps the remainder with the confirmation point advanced. -/
theorem confirm_ok_elim (lane : InboundLaneData) (n : Nat)
    (ret : List UnrewardedRelayerEntry) (lane1 : InboundLaneData)
    (he : confirm lane n = .ok (ret, lane1)) :
    n ≤ last_delivered_nonce lane ∧
    ret = (splitConfirmed n lane.relayers).1 ∧
    lane1 = ⟨max lane.last_confirmed_nonce n, (splitConfirmed n lane.relayers).2⟩ := by
  unfold confirm at he
  split at he
  · exact absurd he (by simp)
  · next hle =>
    simp only [Except.ok.injEq, Prod.mk.injEq] at he
    exact ⟨by omega, he.1.symm, he.2.symm⟩

/-- One inbound transaction preserves chaining, extends the covered nonces
of the returned-plus-retained entries by exactly the accepted block, and
moves the last delivered nonce by exactly the number of accepted nonces. -/
theorem inboundStep_conservation (cfg : InboundConfig) (lane : InboundLaneData)
    (op : InLaneOp)
    (h : chainedFrom lane.last_confirmed_nonce lane.relayers = true) :
    chainedFrom (inboundStep cfg lane op).1.last_confirmed_nonce
        (inboundStep cfg lane op).1.relayers = true ∧
    noncesOf (inboundStep cfg lane op).2.1 ++
        noncesOf (inboundStep cfg lane op).1.relayers
      = noncesOf lane.relayers ++
        List.range' (last_delivered_nonce lane + 1) (inboundStep cfg lane op).2.2 ∧
    last_delivered_nonce (inboundStep cfg lane op).1
      = last_delivered_nonce lane + (inboundStep cfg lane op).2.2 := by
  cases op with
  | recv relayer first_nonce payloads =>
    cases he : receive_batch cfg lane relayer first_nonce payloads with
    | error e =>
      have hred : inboundStep cfg lane (.recv relayer first_nonce payloads)
          = (lane, [], 0) := by
        simp [inboundStep, he]
      rw [hred]
      exact ⟨h, by simp [noncesOf], by simp⟩
    | ok v =>
      obtain ⟨outs, lane1⟩ := v
      have hred : inboundStep cfg lane (.recv relayer first_nonce payloads)
          = (lane1, [], payloads.length) := by
        simp [inboundStep, he]
      rw [hred]
      rcases receive_batch_ok_elim cfg lane relayer first_nonce payloads outs lane1 he
        with ⟨hnil, hsame⟩ | ⟨hne, hexp, hlane, _, _⟩
      · subst hsame
        subst hnil
        exact ⟨h, by simp [noncesOf], by simp⟩
      · subst hlane
        have hsum := chained_sum lane.relayers lane.last_confirmed_nonce h
        have hDL : last_delivered_nonce lane
            = lastRecorded lane.last_confirmed_nonce lane.relayers := rfl
        have hD : first_nonce
            = lastRecorded lane.last_confirmed_nonce lane.relayers + 1 := by
          unfold total_already_received at hexp
          omega
        have hlen : 1 ≤ payloads.length := by
          cases payloads with
          | nil => exact absurd rfl hne
          | cons a l => simp
        have hlast : first_nonce + payloads.length - 1
            = lastRecorded lane.last_confirmed_nonce lane.relayers
              + payloads.length := by omega
        obtain ⟨hs1, hs2, hs3⟩ := appendRange_spec relayer
          (lastRecorded lane.last_confirmed_nonce lane.relayers + payloads.length)
          lane.relayers lane.last_confirmed_nonce h (by omega)
        rw [hlast, hD]
        refine ⟨hs1, ?_, ?_⟩
        · have h0 : noncesOf ([] : List UnrewardedRelayerEntry) = [] := rfl
          rw [h0, List.nil_append]
          show noncesOf (appendRange relayer _ _ lane.relayers) = _
          rw [hs3, hDL]
          have hc : lastRecorded lane.last_confirmed_nonce lane.relayers
                + payloads.length
                - lastRecorded lane.last_confirmed_nonce lane.relayers
              = payloads.length := by omega
          rw [hc]
        · show lastRecorded lane.last_confirmed_nonce
              (appendRange relayer _ _ lane.relayers) = _
          rw [hs2, hDL]
  | conf n =>
    cases he : confirm lane n with
    | error e =>
      have hred : inboundStep cfg lane (.conf n) = (lane, [], 0) := by
        simp [inboundStep, he]
      rw [hred]
      exact ⟨h, by simp [noncesOf], by simp⟩
    | ok v =>
      obtain ⟨ret, lane1⟩ := v
      have hred : inboundStep cfg lane (.conf n) = (lane1, ret, 0) := by
        simp [inboundStep, he]
      rw [hred]
      obtain ⟨hle, hret, hlane⟩ := confirm_ok_elim lane n ret lane1 he
      subst hret
      subst hlane
      refine ⟨?_, ?_, ?_⟩
      · exact splitConfirmed_chained n lane.relayers lane.last_confirmed_nonce h
      · simp only [List.range'_zero, List.append_nil]
        exact splitConfirmed_nonces n lane.relayers
      · simp only [Nat.add_zero]
        exact splitConfirmed_lastRecorded n lane.relayers lane.last_confirmed_nonce h hle

/-- Any run of inbound transactions preserves chaining, and the nonces of
all entries ever returned by `confirm` followed by the still-pending entries
form exactly the contiguous block of nonces accepted during the run. -/
theorem inboundRun_conservation (cfg : InboundConfig) (ops : List InLaneOp) :
    ∀ lane : InboundLaneData,
      chainedFrom lane.last_confirmed_nonce lane.relayers = true →
      chainedFrom (inboundRun cfg lane ops).1.last_confirmed_nonce
          (inboundRun cfg lane ops).1.relayers = true ∧
      noncesOf (inboundRun cfg lane ops).2.1 ++
          noncesOf (inboundRun cfg lane ops).1.relayers
        = noncesOf lane.relayers ++
          List.range' (last_delivered_nonce lane + 1) (inboundRun cfg lane ops).2.2 ∧
      last_delivered_nonce (inboundRun cfg lane ops).1
        = last_delivered_nonce lane + (inboundRun cfg lane ops).2.2 := by
  induction ops with
  | nil =>
    intro lane h
    exact ⟨h, by simp [inboundRun, noncesOf], by simp [inboundRun]⟩
  | cons op ops ih =>
    intro lane h
    obtain ⟨s1, s2, s3⟩ := inboundStep_conservation cfg lane op h
    obtain ⟨r1, r2, r3⟩ := ih (inboundStep cfg lane op).1 s1
    have hred : inboundRun cfg lane (op :: ops)
        = ((inboundRun cfg (inboundStep cfg lane op).1 ops).1,
           (inboundStep cfg lane op).2.1 ++
             (inboundRun cfg (inboundStep cfg lane op).1 ops).2.1,
           (inboundStep cfg lane op).2.2 +
             (inboundRun cfg (inboundStep cfg lane op).1 ops).2.2) := rfl
    rw [hred]
    refine ⟨r1, ?_, ?_⟩
    · rw [noncesOf_append, List.append_assoc, r2, s3, ← List.append_assoc, s2,
        List.append_assoc]
      congr 1
      have happ := List.range'_append (last_delivered_nonce lane + 1)
        (inboundStep cfg lane op).2.2
        (inboundRun cfg (inboundStep cfg lane op).1 ops).2.2 1
      have h5 : last_delivered_nonce lane + 1 + 1 * (inboundStep cfg lane op).2.2
          = last_delivered_nonce lane + (inboundStep cfg lane op).2.2 + 1 := by
        omega
      rw [h5] at happ
      rw [happ]
      congr 1
      show (inboundRun cfg (inboundStep cfg lane op).1 ops).2.2
            + (inboundStep cfg lane op).2.2
          = (inboundStep cfg lane op).2.2
            + (inboundRun cfg (inboundStep cfg lane op).1 ops).2.2
      omega
    · show last_delivered_nonce (inboundRun cfg (inboundStep cfg lane op).1 ops).1
          = last_delivered_nonce lane
            + ((inboundStep cfg lane op).2.2
              + (inboundRun cfg (inboundStep cfg lane op).1 ops).2.2)
      rw [r3, s3]
      omega

/-- C1: reward conservation.  Over every run of inbound transactions on a
fresh lane, the nonces of the `UnrewardedRelayerEntry` records returned by
the successful `confirm` calls (in order), followed by the nonces of the
entries still pending on the lane, are exactly the list `1, 2, …, N` where
`N` is the total number of nonces accepted by `receive_batch` — so every
accepted nonce is returned by exactly one `confirm` call unless it is still
unconfirmed, no nonce is returned twice, and none is omitted. -/
theorem reward_conservation (cfg : InboundConfig) (ops : List InLaneOp) :
    noncesOf (inboundRun cfg freshInboundLane ops).2.1 ++
        noncesOf (inboundRun cfg freshInboundLane ops).1.relayers
      = List.range' 1 (inboundRun cfg freshInboundLane ops).2.2 := by
  obtain ⟨_, h2, _⟩ := inboundRun_conservation cfg ops freshInboundLane rfl
  simpa [freshInboundLane, noncesOf, last_delivered_nonce, lastRecorded] using h2

/-- Unfolding of the inbound-lane invariant on an explicit state. -/
theorem inboundInvariant_mk (cfg : InboundConfig) (lc : Nat)
    (es : List UnrewardedRelayerEntry) :
    inboundInvariant cfg ⟨lc, es⟩ = true ↔
      (chainedFrom lc es = true ∧
        es.length ≤ cfg.maxUnrewardedRelayerEntries ∧
        lastRecorded lc es - lc ≤ cfg.maxUnconfirmedMessages) := by
  simp [inboundInvariant, last_delivered_nonce, and_assoc]

/-- The inbound-lane invariant is preserved by every transaction, for any
configuration. -/
theorem inbound_invariant_step_general (cfg : InboundConfig)
    (lane : InboundLaneData) (op : InLaneOp)
    (h : inboundInvariant cfg lane = true) :
    inboundInvariant cfg (inboundStep cfg lane op).1 = true := by
  obtain ⟨h1, h2, h3⟩ := (inboundInvariant_mk cfg lane.last_confirmed_nonce
    lane.relayers).mp h
  cases op with
  | recv relayer first_nonce payloads =>
    cases he : receive_batch cfg lane relayer first_nonce payloads with
    | error e =>
      have hred : inboundStep cfg lane (.recv relayer first_nonce payloads)
          = (lane, [], 0) := by
        simp [inboundStep, he]
      rw [hred]
      exact h
    | ok v =>
      obtain ⟨outs, lane1⟩ := v
      have hred : inboundStep cfg lane (.recv relayer first_nonce payloads)
          = (lane1, [], payloads.length) := by
        simp [inboundStep, he]
      rw [hred]
      rcases receive_batch_ok_elim cfg lane relayer first_nonce payloads outs lane1 he
        with ⟨hnil, hsame⟩ | ⟨hne, hexp, hlane, hcount, hspan⟩
      · subst hsame
        exact h
      · subst hlane
        have hsum := chained_sum lane.relayers lane.last_confirmed_nonce h1
        have hD : first_nonce
            = lastRecorded lane.last_confirmed_nonce lane.relayers + 1 := by
          unfold total_already_received at hexp
          omega
        have hlen : 1 ≤ payloads.length := by
          cases payloads with
          | nil => exact absurd rfl hne
          | cons a l => simp
        have hlast : first_nonce + payloads.length - 1
            = lastRecorded lane.last_confirmed_nonce lane.relayers
              + payloads.length := by omega
        obtain ⟨hs1, hs2, _⟩ := appendRange_spec relayer
          (lastRecorded lane.last_confirmed_nonce lane.relayers + payloads.length)
          lane.relayers lane.last_confirmed_nonce h1 (by omega)
        rw [hlast] at hcount hspan ⊢
        rw [hD] at hcount ⊢
        show inboundInvariant cfg ⟨lane.last_confirmed_nonce, _⟩ = true
        refine (inboundInvariant_mk cfg _ _).mpr ⟨hs1, hcount, ?_⟩
        rw [hs2]
        omega
  | conf n =>
    cases he : confirm lane n with
    | error e =>
      have hred : inboundStep cfg lane (.conf n) = (lane, [], 0) := by
        simp [inboundStep, he]
      rw [hred]
      exact h
    | ok v =>
      obtain ⟨ret, lane1⟩ := v
      have hred : inboundStep cfg lane (.conf n) = (lane1, ret, 0) := by
        simp [inboundStep, he]
      rw [hred]
      obtain ⟨hle, _, hlane⟩ := confirm_ok_elim lane n ret lane1 he
      subst hlane
      show inboundInvariant cfg
        ⟨max lane.last_confirmed_nonce n, (splitConfirmed n lane.relayers).2⟩ = true
      refine (inboundInvariant_mk cfg _ _).mpr ⟨?_, ?_, ?_⟩
      · exact splitConfirmed_chained n lane.relayers lane.last_confirmed_nonce h1
      · have := splitConfirmed_length n lane.relayers
        omega
      · have hS3 := splitConfirmed_lastRecorded n lane.relayers
          lane.last_confirmed_nonce h1 hle
        rw [hS3]
        have hD : last_delivered_nonce lane
            = lastRecorded lane.last_confirmed_nonce lane.relayers := rfl
        omega

/-- C7: the `InboundLaneData` invariant — contiguous, non-overlapping,
strictly increasing unrewarded nonce ranges; at most 16 entries
(`MaxUnrewardedRelayerEntriesAtInboundLane` in the test runtime); and an
undelivered-but-unconfirmed span of at most 16 nonces
(`MaxUnconfirmedMessagesAtInboundLane`) — is preserved by every inbound
transaction. -/
theorem inbound_lane_invariant_preserved (lane : InboundLaneData) (op : InLaneOp)
    (h : inboundInvariant testInboundConfig lane = true) :
    inboundInvariant testInboundConfig
      (inboundStep testInboundConfig lane op).1 = true :=
  inbound_invariant_step_general testInboundConfig lane op h

/-- Witness for C7: a lane holding the entry `relayer 1, nonces 1-2`
satisfies the invariant, and still does after relayer 2 delivers nonce 3. -/
theorem inbound_lane_invariant_preserved_witness :
    inboundInvariant testInboundConfig
      (inboundStep testInboundConfig ⟨0, [⟨1, 1, 2⟩]⟩
        (.recv 2 3 [[0, 0, 0, 0, 0]])).1 = true :=
  inbound_lane_invariant_preserved ⟨0, [⟨1, 1, 2⟩]⟩ (.recv 2 3 [[0, 0, 0, 0, 0]])
    (by decide)

end BridgesCommon
